import Mathlib

/-!
Verification of the location-collection synchronization and validation
pipeline of the Interactive Location Builder (src/App.tsx and the
duplicate in src/unnamed/part_004).

The embedding has two layers:
* a JSON-value model (`Jval`) over which `validateLocationsData` is
  translated field check by field check from src/App.tsx lines 12-50;
* a typed model (`Location`, `AppState`) of the collection store and
  its mutating handlers from src/App.tsx lines 87-358.

JSON numbers are modelled as `Int`: no verified operation of this
repository ever inspects a numeric value arithmetically (the validator
only checks `typeof === number`), so the carrier of numbers is
irrelevant to every claim.
-/

namespace ILB

/-- A parsed JSON value, as produced by `JSON.parse`.  An `obj` holds the
fields of the resulting object (after `JSON.parse` duplicate-key
resolution), so field lookup is association-list lookup. -/
inductive Jval where
  | null : Jval
  | bool : Bool → Jval
  | num  : Int → Jval
  | str  : String → Jval
  | arr  : List Jval → Jval
  | obj  : List (String × Jval) → Jval

/-- JavaScript property access `v.k` on a parsed JSON value: `some` the
field value when `v` is an object with field `k`, otherwise `none`
(JavaScript `undefined`).  The source only accesses properties of values
already known to be truthy, where access on a non-object yields
`undefined`. -/
def objGet (v : Jval) (k : String) : Option Jval :=
  match v with
  | .obj fields => fields.lookup k
  | _ => none

/-- JavaScript truthiness of a parsed JSON value (used by the source's
`loc && ...` and `q && ...` guards). -/
def truthy : Jval → Bool
  | .null => false
  | .bool b => b
  | .num n => n != 0
  | .str s => s != ""
  | .arr _ => true
  | .obj _ => true

/-- `typeof x === 'string'` on a possibly-absent property. -/
def isStringProp : Option Jval → Bool
  | some (.str _) => true
  | _ => false

/-- `x === null || typeof x === 'string'` on a possibly-absent property
(src/App.tsx lines 24-25, the `video`/`audio` checks). -/
def nullOrString : Option Jval → Bool
  | some .null => true
  | some (.str _) => true
  | _ => false

/-- `typeof x === 'number'` on a parsed JSON value. -/
def isNumVal : Jval → Bool
  | .num _ => true
  | _ => false

/-- `typeof x === 'string'` on a parsed JSON value. -/
def isStrVal : Jval → Bool
  | .str _ => true
  | _ => false

/-- `['short_answer','true_false','multiple_choice'].includes(q.type)`:
`includes` compares with strict equality, so only a string equal to one
of the three tags passes (src/App.tsx line 36). -/
def questionTypeOk : Option Jval → Bool
  | some (.str s) => s == "short_answer" || s == "true_false" || s == "multiple_choice"
  | _ => false

/-- The per-question check of src/App.tsx lines 32-39: `options` is
either absent or an array of strings. -/
def questionOptionsOk : Option Jval → Bool
  | none => true
  | some (.arr opts) => opts.all isStrVal
  | _ => false

/-- The question shape check of src/App.tsx lines 33-39. -/
def checkQuestion (q : Jval) : Bool :=
  truthy q &&
  isStringProp (objGet q "id") &&
  isStringProp (objGet q "text") &&
  questionTypeOk (objGet q "type") &&
  isStringProp (objGet q "answer") &&
  questionOptionsOk (objGet q "options")

/-- `Array.isArray(loc.coordinates) && loc.coordinates.length === 2 &&
typeof loc.coordinates[0] === 'number' && typeof loc.coordinates[1] ===
'number'` (src/App.tsx lines 26-29). -/
def coordinatesOk : Option Jval → Bool
  | some (.arr [a, b]) => isNumVal a && isNumVal b
  | _ => false

/-- `loc.questions === undefined || (Array.isArray(loc.questions) &&
loc.questions.every(checkQuestion))` (src/App.tsx lines 30-40). -/
def questionsFieldOk : Option Jval → Bool
  | none => true
  | some (.arr qs) => qs.all checkQuestion
  | _ => false

/-- `loc.block_navigation === undefined || typeof loc.block_navigation
=== 'boolean'` (src/App.tsx line 41). -/
def blockNavOk : Option Jval → Bool
  | none => true
  | some (.bool _) => true
  | _ => false

/-- The per-element predicate of the `data.filter` call in
`validateLocationsData` (src/App.tsx lines 16-42). -/
def checkLocation (loc : Jval) : Bool :=
  truthy loc &&
  isStringProp (objGet loc "id") &&
  isStringProp (objGet loc "title") &&
  isStringProp (objGet loc "country") &&
  isStringProp (objGet loc "description") &&
  isStringProp (objGet loc "image") &&
  nullOrString (objGet loc "video") &&
  nullOrString (objGet loc "audio") &&
  coordinatesOk (objGet loc "coordinates") &&
  questionsFieldOk (objGet loc "questions") &&
  blockNavOk (objGet loc "block_navigation")

/-- `validateLocationsData` (src/App.tsx lines 12-50): reject
non-arrays; filter the elements by the shape check; if the filtered
list is shorter than the input, return `null` (`none`), otherwise
return the filtered list. -/
def validateLocationsData (data : Jval) : Option (List Jval) :=
  match data with
  | .arr ds =>
    let validLocations := ds.filter checkLocation
    if validLocations.length ≠ ds.length then none
    else some validLocations
  | _ => none

/-- The startup load from the persistence adapter (src/App.tsx lines
59-75; identically src/unnamed/part_004 lines 101-116).  The result is
the in-memory collection together with the value left under the
`locations` key.  `parse` stands for `JSON.parse`: `none` models a
throw (the `catch` branch, which only logs), `some` a successful parse.
On a successful parse that fails validation the key is removed
(`localStorage.removeItem`); on a parse failure the `catch` leaves the
key untouched. -/
def startupLoad (parse : String → Option Jval) (stored : Option String) :
    List Jval × Option String :=
  match stored with
  | none => ([], none)
  | some s =>
    if s = "" then ([], some s)  -- `if (storedLocations)`: "" is falsy, skipped
    else
      match parse s with
      | none => ([], some s)
      | some j =>
        match validateLocationsData j with
        | some locs => (locs, some s)
        | none => ([], none)

/-- A model of `JSON.parse` restricted to inputs on which it throws:
corrupt JSON such as `"\x7bnot json"` parses to no value.  Used only to
evaluate `startupLoad` at corrupt persisted strings. -/
def jsonParseFail : String → Option Jval := fun _ => none

/-- `JSON.parse (JSON.stringify v)` on the JSON-value domain: by the
semantics of the two builtins, serializing a JSON value and parsing the
result back yields the same value, so the composition is the identity
on `Jval`. -/
def jsonRoundTrip (v : Jval) : Jval := v

/-! ## The typed collection-store model

`Location` and `Question` follow src/types.ts.  Optional (`?`) fields
are `Option`; `video`/`audio` are `string | null`, also `Option` (with
`none` printing as JSON `null`, while an absent optional field is
omitted by `JSON.stringify`). -/

inductive QuestionType where
  | short_answer
  | true_false
  | multiple_choice
deriving DecidableEq, Repr

structure Question where
  id : String
  text : String
  type : QuestionType
  options : Option (List String)
  answer : String
deriving DecidableEq, Repr

structure Location where
  id : String
  title : String
  country : String
  description : String
  image : String
  video : Option String
  audio : Option String
  coordinates : Int × Int
  questions : Option (List Question)
  block_navigation : Option Bool
deriving DecidableEq, Repr

/-- The argument record of `handleSaveLocation` (src/App.tsx lines
140-148). -/
structure FormData where
  title : String
  description : String
  image : String
  video : String
  audio : String
  questions : List Question
  block_navigation : Bool
deriving DecidableEq, Repr

/-! ### JSON serialization of the typed model (`JSON.stringify`) -/

/-- `JSON.stringify` escaping of one character inside a string
literal. -/
def escapeChar (c : Char) : String :=
  if c = '\\' then "\\\\"
  else if c = '"' then "\\\""
  else if c = '\n' then "\\n"
  else if c = '\t' then "\\t"
  else if c = '\r' then "\\r"
  else String.singleton c

def serializeString (s : String) : String :=
  "\"" ++ String.join (s.toList.map escapeChar) ++ "\""

def serializeQuestionType : QuestionType → String
  | .short_answer => "\"short_answer\""
  | .true_false => "\"true_false\""
  | .multiple_choice => "\"multiple_choice\""

/-- A `string | null` field: `null` is printed, unlike an absent
field. -/
def serializeNullableString : Option String → String
  | none => "null"
  | some s => serializeString s

def serializeStringArray (xs : List String) : String :=
  "[" ++ String.intercalate "," (xs.map serializeString) ++ "]"

def serializeQuestion (q : Question) : String :=
  "\x7b\"id\":" ++ serializeString q.id ++
  ",\"text\":" ++ serializeString q.text ++
  ",\"type\":" ++ serializeQuestionType q.type ++
  (match q.options with
   | none => ""
   | some opts => ",\"options\":" ++ serializeStringArray opts) ++
  ",\"answer\":" ++ serializeString q.answer ++ "\x7d"

def serializeCoordinates (c : Int × Int) : String :=
  "[" ++ toString c.1 ++ "," ++ toString c.2 ++ "]"

/-- `JSON.stringify` of one `Location`; fields in declaration order,
absent optional fields omitted. -/
def serializeLocation (loc : Location) : String :=
  "\x7b\"id\":" ++ serializeString loc.id ++
  ",\"title\":" ++ serializeString loc.title ++
  ",\"country\":" ++ serializeString loc.country ++
  ",\"description\":" ++ serializeString loc.description ++
  ",\"image\":" ++ serializeString loc.image ++
  ",\"video\":" ++ serializeNullableString loc.video ++
  ",\"audio\":" ++ serializeNullableString loc.audio ++
  ",\"coordinates\":" ++ serializeCoordinates loc.coordinates ++
  (match loc.questions with
   | none => ""
   | some qs => ",\"questions\":[" ++ String.intercalate "," (qs.map serializeQuestion) ++ "]") ++
  (match loc.block_navigation with
   | none => ""
   | some b => ",\"block_navigation\":" ++ (if b then "true" else "false")) ++
  "\x7d"

/-- `JSON.stringify(updatedLocations)` as used by
`updateStoredLocations` (src/App.tsx line 88). -/
def serializeLocations (locs : List Location) : String :=
  "[" ++ String.intercalate "," (locs.map serializeLocation) ++ "]"

/-! ### The application state and its handlers -/

/-- The slice of `App` component state the verified handlers read and
write: the collection, the `locations` key of `localStorage`, and the
editing selection (src/App.tsx lines 54, 99-106). -/
structure AppState where
  locations : List Location
  storedLocations : Option String
  editingLocation : Option Location
  selectedCoords : Option (Int × Int)
  selectedCountry : Option String
deriving DecidableEq, Repr

/-- `updateStoredLocations` (src/App.tsx lines 87-89): write the
serialized list under the `locations` key. -/
def updateStoredLocations (s : AppState) (updatedLocations : List Location) : AppState :=
  { s with storedLocations := some (serializeLocations updatedLocations) }

/-- `insert` (src/App.tsx lines 91-97): append, persist. -/
def insert (s : AppState) (newLocation : Location) : AppState :=
  let updatedLocations := s.locations ++ [newLocation]
  { updateStoredLocations s updatedLocations with locations := updatedLocations }

/-- `handleCancelEdit` (src/App.tsx lines 225-229). -/
def handleCancelEdit (s : AppState) : AppState :=
  { s with editingLocation := none, selectedCoords := none, selectedCountry := none }

/-- The merged record built by the update branch of
`handleSaveLocation` (src/App.tsx lines 156-167): a spread of the
record under edit, so `id` is preserved, with `coordinates`/`country`
taken from the current map selection, not from the form data. -/
def updatedLocationOf (editing : Location) (fd : FormData)
    (coords : Int × Int) (country : String) : Location :=
  { editing with
    title := fd.title
    description := fd.description
    image := fd.image
    video := if fd.video = "" then none else some fd.video
    audio := if fd.audio = "" then none else some fd.audio
    coordinates := coords
    country := country
    questions := some fd.questions
    block_navigation := some fd.block_navigation }

/-- The fresh record built by the create branch of `handleSaveLocation`
(src/App.tsx lines 175-186).  `newId` stands for the
`new Date().toISOString()` value read from the clock at the call. -/
def newLocationOf (newId : String) (fd : FormData)
    (coords : Int × Int) (country : String) : Location :=
  { id := newId
    title := fd.title
    country := country
    description := fd.description
    image := fd.image
    video := if fd.video = "" then none else some fd.video
    audio := if fd.audio = "" then none else some fd.audio
    coordinates := coords
    questions := some fd.questions
    block_navigation := some fd.block_navigation }

/-- `handleSaveLocation` (src/App.tsx lines 140-193).  The guard
`!selectedCoords || !selectedCountry` refuses the save when either is
unset (or the country is the falsy empty string) without touching any
state.  Otherwise the update branch maps over the collection replacing
the records whose `id` equals the edited record's `id`; the create
branch appends via `insert`; both then clear the selection and editing
state. -/
def handleSaveLocation (s : AppState) (fd : FormData) (newId : String) : AppState :=
  match s.selectedCoords, s.selectedCountry with
  | some coords, some country =>
    if country = "" then s
    else
      let s' :=
        match s.editingLocation with
        | some editing =>
          let updatedLocation := updatedLocationOf editing fd coords country
          let updated := s.locations.map
            (fun (loc : Location) => if loc.id = editing.id then updatedLocation else loc)
          { updateStoredLocations s updated with locations := updated }
        | none =>
          insert s (newLocationOf newId fd coords country)
      { s' with selectedCoords := none, selectedCountry := none, editingLocation := none }
  | _, _ => s

/-- `handleDeleteLocation` (src/App.tsx lines 195-204): if the deleted
`id` is the one under edit, first clear the editing state; then filter
the collection and persist. -/
def handleDeleteLocation (s : AppState) (id : String) : AppState :=
  let s1 :=
    match s.editingLocation with
    | some editing => if editing.id = id then handleCancelEdit s else s
    | none => s
  let updatedLocations := s1.locations.filter (fun (loc : Location) => loc.id ≠ id)
  { updateStoredLocations s1 updatedLocations with locations := updatedLocations }

/-- The pair of `splice` calls of `handleReorderLocations`
(src/App.tsx lines 340-342): `items.splice(oldIndex, 1)` removes the
element at `oldIndex` (nothing when out of range); `items.splice(newIndex,
0, item)` inserts `item` at `newIndex`, clamped to the end of the list.
When `oldIndex` is out of range the source would insert the JavaScript
`undefined` into the array, which has no typed counterpart; the claims
only concern in-range indices, where the branch below is exact. -/
def reorderList (l : List α) (oldIndex newIndex : Nat) : List α :=
  match l[oldIndex]? with
  | some reorderedItem =>
    let items := l.eraseIdx oldIndex
    items.take newIndex ++ reorderedItem :: items.drop newIndex
  | none => l

/-- `handleReorderLocations` (src/App.tsx lines 338-346). -/
def handleReorderLocations (s : AppState) (oldIndex newIndex : Nat) : AppState :=
  let items := reorderList s.locations oldIndex newIndex
  { updateStoredLocations s items with locations := items }

/-- The success path of `handleImport` (src/App.tsx lines 279-281):
wholesale replacement of the collection by the validated import,
persisted. -/
def handleImportValidated (s : AppState) (validatedLocations : List Location) : AppState :=
  { updateStoredLocations s validatedLocations with locations := validatedLocations }

/-- `handleClearAllLocations` after user confirmation (src/App.tsx
lines 353-358). -/
def handleClearAllLocations (s : AppState) : AppState :=
  { updateStoredLocations s [] with locations := [] }

/-- The ids of the collection, in order. -/
def ids (l : List Location) : List String := l.map Location.id

/-- One mutating operation on the collection, each mapped to its
handler in src/App.tsx: `insertOp` to `insert`, `saveOp` to
`handleSaveLocation` (so it is the update operation when a record is
under edit and the create operation otherwise), `deleteOp` to
`handleDeleteLocation`, `reorderOp` to `handleReorderLocations`,
`importOp` to the validated-import replacement, `clearOp` to
`handleClearAllLocations`. -/
inductive MutOp where
  | insertOp (loc : Location)
  | saveOp (fd : FormData) (newId : String)
  | deleteOp (id : String)
  | reorderOp (oldIndex newIndex : Nat)
  | importOp (locs : List Location)
  | clearOp
deriving DecidableEq, Repr

def applyMutOp (s : AppState) : MutOp → AppState
  | .insertOp loc => insert s loc
  | .saveOp fd newId => handleSaveLocation s fd newId
  | .deleteOp id => handleDeleteLocation s id
  | .reorderOp i j => handleReorderLocations s i j
  | .importOp locs => handleImportValidated s locs
  | .clearOp => handleClearAllLocations s

def applyMutOps (s : AppState) : List MutOp → AppState
  | [] => s
  | op :: ops => applyMutOps (applyMutOp s op) ops

/-- The caller-side id discipline the store relies on (spec section 4.2):
an inserted record's id is fresh, a created record's clock-generated id
is fresh, and an imported collection has no duplicate ids.  Update,
delete, reorder and clear need no condition. -/
def OkOp (s : AppState) : MutOp → Prop
  | .insertOp loc => loc.id ∉ ids s.locations
  | .saveOp _ newId => s.editingLocation = none → newId ∉ ids s.locations
  | .importOp locs => (ids locs).Nodup
  | _ => True

def OkOps (s : AppState) : List MutOp → Prop
  | [] => True
  | op :: ops => OkOp s op ∧ OkOps (applyMutOp s op) ops

/-- The acceptance condition the spec states for `video`/`audio`:
exactly `null` or a string (absent, number, boolean, object and array
values all refused).  Stated from the spec's words, to be compared with
the source's `nullOrString`. -/
def specNullOrString (v : Option Jval) : Prop :=
  v = some Jval.null ∨ ∃ s, v = some (Jval.str s)

/-- A concrete well-formed location object, used to instantiate the
validator theorems. -/
def sampleLocJ : Jval :=
  Jval.obj [("id", .str "loc-1"), ("title", .str "Petra"),
            ("country", .str "Jordan"), ("description", .str "d"),
            ("image", .str ""), ("video", .null), ("audio", .str "a.mp3"),
            ("coordinates", .arr [.num 31, .num 35])]

/-- The guard under which a `MutOp` actually mutates: `handleSaveLocation`
refuses the save (alert, no state change) when the selection is unset or
the selected country is the falsy empty string; every other operation is
unconditional. -/
def MutGuard (s : AppState) : MutOp → Prop
  | .saveOp _ _ =>
    (∃ c, s.selectedCoords = some c) ∧
    ∃ cty, s.selectedCountry = some cty ∧ cty ≠ ""
  | _ => True

/-- Concrete typed locations for instantiating the store theorems. -/
def locA : Location :=
  ⟨"a", "Petra", "Jordan", "d", "img", none, none, (31, 35), none, none⟩

def locB : Location :=
  ⟨"b", "Amman", "Jordan", "d2", "img2", some "v.mp4", none, (32, 36), none, some true⟩

/-- A concrete application state holding `locA`, with `locA` open for
editing and a valid map selection. -/
def sampleState : AppState :=
  { locations := [locA]
    storedLocations := some (serializeLocations [locA])
    editingLocation := some locA
    selectedCoords := some (30, 34)
    selectedCountry := some "Jordan" }

/-- A concrete form payload. -/
def sampleForm : FormData :=
  ⟨"Petra 2", "d3", "img3", "", "a.mp3", [], false⟩

/-! ## Helper lemmas -/

theorem validate_none_of_mem_bad (ds : List Jval) (loc : Jval)
    (hmem : loc ∈ ds) (hbad : checkLocation loc = false) :
    validateLocationsData (Jval.arr ds) = none := by
  have hne : (ds.filter checkLocation).length ≠ ds.length := by
    intro heq
    have hself := List.Sublist.eq_of_length (List.filter_sublist ds) heq
    have hall := List.filter_eq_self.mp hself loc hmem
    rw [hbad] at hall
    exact Bool.false_ne_true hall
  simp [validateLocationsData, hne]

theorem validate_some_eq (ds : List Jval) (r : List Jval)
    (h : validateLocationsData (Jval.arr ds) = some r) : r = ds := by
  by_cases hlen : (ds.filter checkLocation).length = ds.length
  · have hself := List.Sublist.eq_of_length (List.filter_sublist ds) hlen
    simp [validateLocationsData, hlen] at h
    rw [← h, hself]
  · simp [validateLocationsData, hlen] at h

/-! ## Claim theorems -/

/-- C1: if any element of the input array fails the per-element field
check, `validateLocationsData` returns invalid (`none`) for the whole
input; and whenever it does accept, the accepted list is the entire
input, never a proper sub-list. -/
theorem validate_all_or_nothing (ds : List Jval) :
    (∀ loc ∈ ds, checkLocation loc = false →
      validateLocationsData (Jval.arr ds) = none) ∧
    (∀ r, validateLocationsData (Jval.arr ds) = some r → r = ds) := by
  constructor
  · intro loc hmem hbad
    exact validate_none_of_mem_bad ds loc hmem hbad
  · intro r h
    exact validate_some_eq ds r h

/-- Witness for C1: a two-element input whose second element is an
empty object (well-typed in no field) is rejected wholesale, even
though its first element is well-formed. -/
theorem validate_all_or_nothing_witness :
    checkLocation sampleLocJ = true ∧
    validateLocationsData (Jval.arr [sampleLocJ, Jval.obj []]) = none := by
  refine ⟨by rfl, ?_⟩
  exact (validate_all_or_nothing [sampleLocJ, Jval.obj []]).1
    (Jval.obj []) (by simp) (by rfl)

/-- C9: the source's `video`/`audio` conjunct accepts a property value
exactly when it is `null` or a string (so an absent, numeric, boolean,
object or array value fails it), and any element whose `video` or
`audio` property fails it makes the whole input invalid. -/
theorem video_audio_null_or_string :
    (∀ v, nullOrString v = true ↔ specNullOrString v) ∧
    (∀ (ds : List Jval), ∀ loc ∈ ds,
      (nullOrString (objGet loc "video") = false ∨
       nullOrString (objGet loc "audio") = false) →
      validateLocationsData (Jval.arr ds) = none) := by
  constructor
  · intro v
    match v with
    | none => simp [nullOrString, specNullOrString]
    | some .null => simp [nullOrString, specNullOrString]
    | some (.bool b) => simp [nullOrString, specNullOrString]
    | some (.num n) => simp [nullOrString, specNullOrString]
    | some (.str s) => simp [nullOrString, specNullOrString]
    | some (.arr xs) => simp [nullOrString, specNullOrString]
    | some (.obj fs) => simp [nullOrString, specNullOrString]
  · intro ds loc hmem hbad
    have hcl : checkLocation loc = false := by
      rcases hbad with h | h <;> simp [checkLocation, h]
    exact validate_none_of_mem_bad ds loc hmem hcl

/-- Witness for C9: a location whose `video` is the number `3` fails
the conjunct, and an input containing it is rejected wholesale. -/
theorem video_audio_null_or_string_witness :
    nullOrString (some (Jval.num 3)) = false ∧
    validateLocationsData
      (Jval.arr [Jval.obj [("video", Jval.num 3)]]) = none := by
  refine ⟨by rfl, ?_⟩
  exact video_audio_null_or_string.2 [Jval.obj [("video", Jval.num 3)]]
    (Jval.obj [("video", Jval.num 3)]) (by simp) (Or.inl (by rfl))

/-- C6: serializing a well-formed collection and parsing it back (the
identity on the JSON-value domain) then validating returns exactly the
original collection, element for element and in order. -/
theorem validate_roundtrip (L : List Jval) (h : L.all checkLocation = true) :
    validateLocationsData (jsonRoundTrip (Jval.arr L)) = some L := by
  have hall : ∀ loc ∈ L, checkLocation loc = true := by
    intro loc hmem
    exact List.all_eq_true.mp h loc hmem
  have hself : L.filter checkLocation = L := List.filter_eq_self.mpr hall
  simp [jsonRoundTrip, validateLocationsData, hself]

/-- Witness for C6: the round-trip theorem at a concrete one-element
well-formed collection. -/
theorem validate_roundtrip_witness :
    ([sampleLocJ].all checkLocation = true) ∧
    validateLocationsData (jsonRoundTrip (Jval.arr [sampleLocJ])) = some [sampleLocJ] :=
  ⟨by rfl, validate_roundtrip [sampleLocJ] (by rfl)⟩

/-- C2 counterexample: with the corrupt persisted value `"\x7bnot json"`
(on which `JSON.parse` throws), the startup load does leave the
in-memory collection empty, but the persisted key still holds the
corrupt value — the `catch` branch only logs and never removes the key —
so the claim that the key no longer holds the corrupt value is false. -/
theorem startup_corrupt_counterexample :
    (startupLoad jsonParseFail (some "\x7bnot json")).1 = [] ∧
    ¬ ((startupLoad jsonParseFail (some "\x7bnot json")).2 ≠ some "\x7bnot json") := by
  constructor
  · rfl
  · intro h
    exact h rfl

/-- C2 amended: for every corrupt persisted string (one on which the
parse throws), startup yields an empty in-memory collection while the
persisted key still holds the corrupt value unchanged; the key is
removed only when the value parses but fails schema validation. -/
theorem startup_corrupt_keeps_key (parse : String → Option Jval) (str : String)
    (h : parse str = none) :
    startupLoad parse (some str) = ([], some str) := by
  by_cases hemp : str = ""
  · simp [startupLoad, hemp]
  · simp [startupLoad, hemp, h]

/-- Witness for the amended C2 at the concrete corrupt string. -/
theorem startup_corrupt_keeps_key_witness :
    jsonParseFail "\x7bnot json" = none ∧
    startupLoad jsonParseFail (some "\x7bnot json") = ([], some "\x7bnot json") :=
  ⟨rfl, startup_corrupt_keeps_key jsonParseFail "\x7bnot json" rfl⟩

theorem eraseIdx_take_cons_drop (j : Nat) (m : List α) (a : α) (hj : j ≤ m.length) :
    (m.take j ++ a :: m.drop j).eraseIdx j = m := by
  induction j generalizing m with
  | zero => simp
  | succ k ih =>
    cases m with
    | nil => simp at hj
    | cons b t =>
      simp only [List.take_succ_cons, List.drop_succ_cons, List.cons_append,
        List.eraseIdx_cons_succ]
      rw [ih t (by simpa using hj)]

theorem getElem?_take_cons_drop (m : List α) (j : Nat) (a : α) (hj : j ≤ m.length) :
    (m.take j ++ a :: m.drop j)[j]? = some a := by
  rw [List.getElem?_append_right (by simp [List.length_take, Nat.min_le_left])]
  simp [List.length_take, Nat.min_eq_left hj]

/-- C4: for in-range indices, `reorderList` is the splice-out/splice-in
permutation: the result has the same length, carries the element that
was at `oldIndex` at position `newIndex` of the resulting array, and
erasing it there gives back the original list with `oldIndex` erased
(so nothing else moved relative to that erasure — not a swap). -/
theorem reorder_splice (l : List α) (i j : Nat) (hi : i < l.length) (hj : j < l.length) :
    (reorderList l i j).length = l.length ∧
    (reorderList l i j)[j]? = l[i]? ∧
    (reorderList l i j).eraseIdx j = l.eraseIdx i := by
  have hget : l[i]? = some l[i] := List.getElem?_eq_getElem hi
  have hm : (l.eraseIdx i).length = l.length - 1 := by
    rw [List.length_eraseIdx]; simp [hi]
  have hjm : j ≤ (l.eraseIdx i).length := by omega
  refine ⟨?_, ?_, ?_⟩
  · simp only [reorderList, hget]
    simp [List.length_take, List.length_drop, hm]
    omega
  · simp only [reorderList, hget]
    rw [getElem?_take_cons_drop _ _ _ hjm]
  · simp only [reorderList, hget]
    rw [eraseIdx_take_cons_drop _ _ _ hjm]

/-- Witness for C4, checking the spec's concrete example: on
`[A,B,C,D]`, `reorder(0,2)` yields `[B,C,A,D]`. -/
theorem reorder_splice_witness :
    (reorderList ["A", "B", "C", "D"] 0 2)[2]? = (["A", "B", "C", "D"] : List String)[0]? ∧
    reorderList ["A", "B", "C", "D"] 0 2 = ["B", "C", "A", "D"] :=
  ⟨(reorder_splice ["A", "B", "C", "D"] 0 2 (by decide) (by decide)).2.1, by rfl⟩

theorem take_cons_drop_perm (m : List α) (j : Nat) (a : α) :
    (m.take j ++ a :: m.drop j).Perm (a :: m) := by
  refine List.perm_middle.trans ?_
  rw [List.take_append_drop]

theorem perm_cons_eraseIdx (l : List α) (i : Nat) (a : α) (h : l[i]? = some a) :
    l.Perm (a :: l.eraseIdx i) := by
  induction l generalizing i with
  | nil => simp at h
  | cons b t ih =>
    cases i with
    | zero =>
      simp at h
      subst h
      simp
    | succ k =>
      simp only [List.getElem?_cons_succ] at h
      simp only [List.eraseIdx_cons_succ]
      exact (List.Perm.cons b (ih k h)).trans (List.Perm.swap a b _)

theorem reorderList_perm (l : List α) (i j : Nat) :
    (reorderList l i j).Perm l := by
  cases h : l[i]? with
  | none => simp [reorderList, h]
  | some a =>
    simp only [reorderList, h]
    exact (take_cons_drop_perm _ j a).trans (perm_cons_eraseIdx l i a h).symm

theorem nodup_ids_append (l : List Location) (x : Location)
    (h : x.id ∉ ids l) (hnd : (ids l).Nodup) : (ids (l ++ [x])).Nodup := by
  simp only [ids, List.map_append, List.map_cons, List.map_nil] at *
  rw [List.nodup_append]
  refine ⟨hnd, List.nodup_singleton _, ?_⟩
  intro a ha hmem
  simp at hmem
  exact h (hmem ▸ ha)

theorem ids_map_update (l : List Location) (eid : String) (upd : Location)
    (hupd : upd.id = eid) :
    ids (l.map (fun loc => if loc.id = eid then upd else loc)) = ids l := by
  simp only [ids, List.map_map]
  apply List.map_congr_left
  intro a _
  by_cases hA : a.id = eid
  · simp [Function.comp, hA, hupd]
  · simp [Function.comp, hA]

theorem nodup_ids_filter (l : List Location) (p : Location → Bool)
    (hnd : (ids l).Nodup) : (ids (l.filter p)).Nodup :=
  List.Nodup.sublist (List.Sublist.map Location.id (List.filter_sublist l)) hnd

theorem delete_locations (s : AppState) (idv : String) :
    (handleDeleteLocation s idv).locations =
      s.locations.filter (fun (loc : Location) => loc.id ≠ idv) := by
  unfold handleDeleteLocation
  cases s.editingLocation with
  | none => rfl
  | some e =>
    by_cases h : e.id = idv
    · simp [h, handleCancelEdit]
    · simp [h]

theorem nodup_ids_applyMutOp (s : AppState) (op : MutOp) (hok : OkOp s op)
    (hnd : (ids s.locations).Nodup) :
    (ids (applyMutOp s op).locations).Nodup := by
  cases op with
  | insertOp loc =>
    exact nodup_ids_append s.locations loc hok hnd
  | saveOp fd newId =>
    simp only [applyMutOp, handleSaveLocation]
    cases hc : s.selectedCoords with
    | none => exact hnd
    | some coords =>
      cases hcty : s.selectedCountry with
      | none => exact hnd
      | some country =>
        by_cases hemp : country = ""
        · simp only [hemp, if_pos rfl]
          exact hnd
        · simp only [if_neg hemp]
          cases he : s.editingLocation with
          | some e =>
            simp only []
            rw [show (ids (s.locations.map (fun loc =>
              if loc.id = e.id then updatedLocationOf e fd coords country else loc)))
              = ids s.locations from ids_map_update _ _ _ rfl]
            exact hnd
          | none =>
            exact nodup_ids_append s.locations _ (hok he) hnd
  | deleteOp idv =>
    rw [show (applyMutOp s (.deleteOp idv)).locations =
      s.locations.filter (fun (loc : Location) => loc.id ≠ idv) from
      delete_locations s idv]
    exact nodup_ids_filter _ _ hnd
  | reorderOp i j =>
    have hperm : (ids s.locations).Perm (ids (reorderList s.locations i j)) :=
      ((reorderList_perm s.locations i j).map Location.id).symm
    exact List.Perm.nodup hperm hnd
  | importOp locs =>
    exact hok
  | clearOp =>
    simp [applyMutOp, handleClearAllLocations, ids]

/-- C5: starting from any state whose collection has pairwise-distinct
ids, after any sequence of mutating operations in which every inserted
or created record carries a fresh id (the caller-side discipline the
insert layer relies on without re-checking) and every import is
duplicate-free, all ids in the collection remain pairwise distinct. -/
theorem ids_nodup_preserved (s : AppState) (ops : List MutOp)
    (hnd : (ids s.locations).Nodup) (hok : OkOps s ops) :
    (ids (applyMutOps s ops).locations).Nodup := by
  induction ops generalizing s with
  | nil => exact hnd
  | cons op ops ih =>
    exact ih (applyMutOp s op) (nodup_ids_applyMutOp s op hok.1 hnd) hok.2

/-- Witness for C5: a concrete run of insert, reorder and delete on a
one-element collection keeps the ids distinct. -/
theorem ids_nodup_preserved_witness :
    (ids [locA]).Nodup ∧
    OkOps ⟨[locA], none, none, none, none⟩
      [.insertOp locB, .reorderOp 0 1, .deleteOp "a"] ∧
    (ids (applyMutOps ⟨[locA], none, none, none, none⟩
      [.insertOp locB, .reorderOp 0 1, .deleteOp "a"]).locations).Nodup := by
  have h1 : (ids [locA]).Nodup := by simp [ids, locA]
  have h2 : OkOps ⟨[locA], none, none, none, none⟩
      [.insertOp locB, .reorderOp 0 1, .deleteOp "a"] := by
    refine ⟨?_, trivial, trivial, trivial⟩
    simp [OkOp, ids, locA, locB]
  exact ⟨h1, h2, ids_nodup_preserved _ _ h1 h2⟩

/-- C3: immediately after any mutating operation (insert, the save
handler in either branch when its guard lets it mutate, delete,
reorder, validated import, clear), the value persisted under the
`locations` key is exactly the JSON serialization of the in-memory
collection at that moment. -/
theorem persisted_matches_memory (s : AppState) (op : MutOp) (hg : MutGuard s op) :
    (applyMutOp s op).storedLocations =
      some (serializeLocations (applyMutOp s op).locations) := by
  cases op with
  | insertOp loc => rfl
  | saveOp fd newId =>
    obtain ⟨⟨c, hc⟩, cty, hcty, hne⟩ := hg
    simp only [applyMutOp, handleSaveLocation, hc, hcty, if_neg hne]
    cases s.editingLocation with
    | some e => rfl
    | none => rfl
  | deleteOp idv =>
    simp only [applyMutOp, handleDeleteLocation]
    cases s.editingLocation with
    | none => rfl
    | some e =>
      by_cases h : e.id = idv
      · simp only [if_pos h]; rfl
      · simp only [if_neg h]; rfl
  | reorderOp i j => rfl
  | importOp locs => rfl
  | clearOp => rfl

/-- Witness for C3: a save in update mode from `sampleState` (whose
guard holds) leaves the persisted key equal to the serialized
collection. -/
theorem persisted_matches_memory_witness :
    MutGuard sampleState (.saveOp sampleForm "2025-01-01T00:00:00.000Z") ∧
    (applyMutOp sampleState (.saveOp sampleForm "2025-01-01T00:00:00.000Z")).storedLocations =
      some (serializeLocations
        (applyMutOp sampleState (.saveOp sampleForm "2025-01-01T00:00:00.000Z")).locations) := by
  have hg : MutGuard sampleState (.saveOp sampleForm "2025-01-01T00:00:00.000Z") := by
    refine ⟨⟨(30, 34), rfl⟩, "Jordan", rfl, by decide⟩
  exact ⟨hg, persisted_matches_memory sampleState _ hg⟩

theorem filter_ne_eq_eraseP (l : List Location) (idv : String)
    (hnd : (ids l).Nodup) :
    l.filter (fun (loc : Location) => loc.id ≠ idv) =
      l.eraseP (fun loc => loc.id == idv) := by
  induction l with
  | nil => rfl
  | cons h t ih =>
    simp only [ids, List.map_cons, List.nodup_cons] at hnd
    obtain ⟨hnotin, hndt⟩ := hnd
    by_cases hh : h.id = idv
    · rw [List.filter_cons, List.eraseP_cons]
      have hbeq : (h.id == idv) = true := by simp [hh]
      rw [if_neg (by simp [hh])]
      simp only [hbeq, cond_true]
      apply List.filter_eq_self.mpr
      intro a ha
      simp only [decide_eq_true_eq]
      intro heq
      apply hnotin
      rw [hh, ← heq]
      exact List.mem_map_of_mem Location.id ha
    · have hbeq : (h.id == idv) = false := by simp [hh]
      rw [List.filter_cons, List.eraseP_cons]
      rw [if_pos (by simp [hh])]
      simp only [hbeq, cond_false]
      rw [ih (by simpa [ids] using hndt)]

/-- C7: under the collection's unique-id invariant, deleting `id`
removes exactly the first (and only) record whose id matches; and if
the deleted record is the one currently open for editing, the editing
state (edited record, selected coordinates, selected country) is
cleared by the same delete. -/
theorem delete_spec (s : AppState) (idv : String)
    (hnd : (ids s.locations).Nodup) :
    (handleDeleteLocation s idv).locations =
      s.locations.eraseP (fun loc => loc.id == idv) ∧
    (∀ e, s.editingLocation = some e → e.id = idv →
      (handleDeleteLocation s idv).editingLocation = none ∧
      (handleDeleteLocation s idv).selectedCoords = none ∧
      (handleDeleteLocation s idv).selectedCountry = none) := by
  constructor
  · rw [delete_locations s idv]
    exact filter_ne_eq_eraseP s.locations idv hnd
  · intro e he heid
    simp only [handleDeleteLocation, he, if_pos heid, handleCancelEdit]
    exact ⟨rfl, rfl, rfl⟩

/-- Witness for C7: deleting the record under edit from `sampleState`
removes it and clears the editing state. -/
theorem delete_spec_witness :
    (ids sampleState.locations).Nodup ∧
    (handleDeleteLocation sampleState "a").locations =
      sampleState.locations.eraseP (fun loc => loc.id == "a") ∧
    (handleDeleteLocation sampleState "a").editingLocation = none := by
  have hnd : (ids sampleState.locations).Nodup := by simp [sampleState, ids, locA]
  have h := delete_spec sampleState "a" hnd
  exact ⟨hnd, h.1, (h.2 locA rfl rfl).1⟩

theorem delete_stored (s : AppState) (idv : String) :
    (handleDeleteLocation s idv).storedLocations =
      some (serializeLocations
        (s.locations.filter (fun (loc : Location) => loc.id ≠ idv))) := by
  unfold handleDeleteLocation
  cases s.editingLocation with
  | none => rfl
  | some e =>
    by_cases h : e.id = idv
    · simp only [if_pos h]; rfl
    · simp only [if_neg h]; rfl

/-- C10: deleting an id that matches no record leaves the in-memory
collection element-wise unchanged, and the persisted value is rewritten
to the serialization of that same unchanged collection. -/
theorem delete_missing_noop (s : AppState) (idv : String)
    (h : idv ∉ ids s.locations) :
    (handleDeleteLocation s idv).locations = s.locations ∧
    (handleDeleteLocation s idv).storedLocations =
      some (serializeLocations s.locations) := by
  have hfil : s.locations.filter (fun (loc : Location) => loc.id ≠ idv) = s.locations := by
    apply List.filter_eq_self.mpr
    intro a ha
    simp only [decide_eq_true_eq]
    intro heq
    apply h
    rw [← heq]
    exact List.mem_map_of_mem Location.id ha
  constructor
  · rw [delete_locations s idv, hfil]
  · rw [delete_stored s idv, hfil]

/-- Witness for C10: deleting the absent id `"zz"` from `sampleState`
changes nothing and re-persists the same collection. -/
theorem delete_missing_noop_witness :
    "zz" ∉ ids sampleState.locations ∧
    (handleDeleteLocation sampleState "zz").locations = sampleState.locations ∧
    (handleDeleteLocation sampleState "zz").storedLocations =
      some (serializeLocations sampleState.locations) := by
  have h : "zz" ∉ ids sampleState.locations := by simp [sampleState, ids, locA]
  exact ⟨h, (delete_missing_noop sampleState "zz" h).1,
    (delete_missing_noop sampleState "zz" h).2⟩

/-- C8: with a record under edit and a valid map selection, the save
handler replaces exactly the records whose id matches the edited
record's id by the merged copy, which preserves the original `id` and
takes `coordinates` and `country` from the currently-selected map
state (the form payload carries neither); and when the edited id
matches no record, the collection is left element-wise unchanged. -/
theorem save_update_spec (s : AppState) (fd : FormData) (newId : String)
    (e : Location) (c : Int × Int) (cty : String)
    (he : s.editingLocation = some e) (hc : s.selectedCoords = some c)
    (hcty : s.selectedCountry = some cty) (hne : cty ≠ "") :
    (handleSaveLocation s fd newId).locations =
      s.locations.map (fun (loc : Location) =>
        if loc.id = e.id then updatedLocationOf e fd c cty else loc) ∧
    (updatedLocationOf e fd c cty).id = e.id ∧
    (updatedLocationOf e fd c cty).coordinates = c ∧
    (updatedLocationOf e fd c cty).country = cty ∧
    (e.id ∉ ids s.locations →
      (handleSaveLocation s fd newId).locations = s.locations) := by
  have hloc : (handleSaveLocation s fd newId).locations =
      s.locations.map (fun (loc : Location) =>
        if loc.id = e.id then updatedLocationOf e fd c cty else loc) := by
    simp only [handleSaveLocation, hc, hcty, if_neg hne, he]
  refine ⟨hloc, rfl, rfl, rfl, ?_⟩
  intro hnotin
  rw [hloc]
  have hid : ∀ a ∈ s.locations,
      (if a.id = e.id then updatedLocationOf e fd c cty else a) = a := by
    intro a ha
    rw [if_neg]
    intro heq
    apply hnotin
    rw [← heq]
    exact List.mem_map_of_mem Location.id ha
  rw [List.map_congr_left hid]
  simp

/-- Witness for C8: saving `sampleForm` over the edited `locA` in
`sampleState` yields exactly the merged record, with id preserved. -/
theorem save_update_spec_witness :
    (handleSaveLocation sampleState sampleForm "z").locations =
      [updatedLocationOf locA sampleForm (30, 34) "Jordan"] ∧
    (updatedLocationOf locA sampleForm (30, 34) "Jordan").id = locA.id := by
  have h := save_update_spec sampleState sampleForm "z" locA (30, 34) "Jordan"
    rfl rfl rfl (by decide)
  refine ⟨?_, h.2.1⟩
  rw [h.1]
  rfl

end ILB
